import Mathlib

/-!
Verification of the Tic-Tac-Toe game engine in
`src/react_frontend/src/App.js`.

The React component keeps its state in component-local variables
(`mode`, `board`, `xIsNext`, `status`, `gameStarted`, `gameOver`, `score`);
we embed that state as the structure `GameState` and each handler as a
pure state-transformer.  Machine-irrelevant rendering code is out of
scope.  Randomness in `makeAIMove` (`Math.floor(Math.random()*len)`) is
embedded as an extra `Nat` parameter reduced modulo the number of empty
squares, so that quantifying over the parameter covers every draw the
source can make.
-/

/-- A player symbol, `PLAYER_X = "X"` / `PLAYER_O = "O"` in the source. -/
inductive Player where
  | X
  | O
deriving DecidableEq

/-- A board cell: `null` (empty) or a player symbol. -/
abbrev Cell := Option Player

/-- The 9-cell board, index 0–8 row-major, as in the source array. -/
abbrev Board := Fin 9 → Cell

/-- `getInitialBoard`: `Array(9).fill(null)`. -/
def getInitialBoard : Board := fun _ => none

-- The `MODES` enum object of the source (`mode` is a plain string).
namespace MODES

def TWO_PLAYER : String := "TWO_PLAYER"

def SINGLE_PLAYER : String := "SINGLE_PLAYER"

end MODES

/-- The `score` object `{ X: 0, O: 0, Draw: 0 }`. -/
structure Score where
  X : Nat
  O : Nat
  Draw : Nat
deriving DecidableEq

/-- `setScore(prev => ({...prev, [winner]: prev[winner] + 1}))`:
bump the counter keyed by the winner symbol. -/
def Score.addWin (sc : Score) : Player → Score
  | Player.X => { sc with X := sc.X + 1 }
  | Player.O => { sc with O := sc.O + 1 }

/-- The component state of `App`. -/
structure GameState where
  mode : String
  board : Board
  xIsNext : Bool
  status : String
  gameStarted : Bool
  gameOver : Bool
  score : Score
deriving DecidableEq

/-- The initial `useState` values of the component. -/
def initialState : GameState :=
  { mode := MODES.TWO_PLAYER
    board := getInitialBoard
    xIsNext := true
    status := "Choose a mode & start the game."
    gameStarted := false
    gameOver := false
    score := { X := 0, O := 0, Draw := 0 } }

/-- The 8 fixed win lines of `calculateWinner` / `boardWinnerSquares`,
in source order: rows, then columns, then diagonals. -/
def winLines : List (Fin 9 × Fin 9 × Fin 9) :=
  [(0, 1, 2), (3, 4, 5), (6, 7, 8),
   (0, 3, 6), (1, 4, 7), (2, 5, 8),
   (0, 4, 8), (2, 4, 6)]

/-- The loop-body test shared by `calculateWinner` and
`boardWinnerSquares`: `squares[a] && squares[a]===squares[b] &&
squares[a]===squares[c]`. -/
def lineMatches (squares : Board) (l : Fin 9 × Fin 9 × Fin 9) : Bool :=
  (squares l.1).isSome
    && decide (squares l.1 = squares l.2.1)
    && decide (squares l.1 = squares l.2.2)

/-- `calculateWinner(squares)`: return `squares[a]` of the first matching
line, else `null`. -/
def calculateWinner (squares : Board) : Option Player :=
  match winLines.find? (lineMatches squares) with
  | some l => squares l.1
  | none => none

/-- `boardWinnerSquares(squares)`: the indices of the first matching
line, else `[]`. -/
def boardWinnerSquares (squares : Board) : List (Fin 9) :=
  match winLines.find? (lineMatches squares) with
  | some l => [l.1, l.2.1, l.2.2]
  | none => []

/-- `newBoard.every((cell) => cell !== null)`. -/
def boardFull (b : Board) : Prop := ∀ i, b i ≠ none

instance (b : Board) : Decidable (boardFull b) :=
  inferInstanceAs (Decidable (∀ i, b i ≠ none))

/-- Rendering of a symbol inside status strings. -/
def playerString : Player → String
  | Player.X => "X"
  | Player.O => "O"

/-- The status string of the win branch of `handleBoardUpdate`. -/
def winStatusMsg (mode : String) (winner : Player) : String :=
  if mode = MODES.SINGLE_PLAYER then
    if winner = Player.X then "You win! 🎉" else "Computer wins! 😞"
  else
    "Player " ++ playerString winner ++ " wins! 🎉"

/-- The status string of the continue branch of `handleBoardUpdate`. -/
def continueStatusMsg (mode : String) (xTurnNext : Bool) : String :=
  if mode = MODES.SINGLE_PLAYER then
    if xTurnNext then "Your move: X (You)" else "Computer is thinking..."
  else
    (if xTurnNext then "X" else "O") ++ "\x27s turn"

/-- `handleBoardUpdate(newBoard, xTurnNext)`: the resolution step run
after every placement.  The caller has already stored `newBoard` in the
state; this function only updates `status`, `gameOver`, `score`,
`xIsNext`. -/
def handleBoardUpdate (s : GameState) (newBoard : Board) (xTurnNext : Bool) :
    GameState :=
  match calculateWinner newBoard with
  | some winner =>
      { s with
        status := winStatusMsg s.mode winner
        gameOver := true
        score := s.score.addWin winner }
  | none =>
      if boardFull newBoard then
        { s with
          status := "It\x27s a draw!"
          gameOver := true
          score := { s.score with Draw := s.score.Draw + 1 } }
      else
        { s with
          status := continueStatusMsg s.mode xTurnNext
          xIsNext := xTurnNext }

/-- `startGame(selectedMode)`. -/
def startGame (selectedMode : String) (s : GameState) : GameState :=
  { s with
    mode := selectedMode
    board := getInitialBoard
    gameStarted := true
    xIsNext := true
    gameOver := false
    status := "Your move: X"
      ++ (if selectedMode = MODES.SINGLE_PLAYER then " (You)" else "") }

/-- `restartGame()`. -/
def restartGame (s : GameState) : GameState :=
  { s with
    board := getInitialBoard
    gameOver := false
    xIsNext := true
    status := "Game reset. "
      ++ (if s.mode = MODES.SINGLE_PLAYER then "Your move: X (You)"
          else "X\x27s turn") }

/-- `handleSquareClick(idx)`: the human move. -/
def handleSquareClick (s : GameState) (idx : Fin 9) : GameState :=
  if s.gameStarted = false ∨ s.board idx ≠ none ∨ s.gameOver = true then s
  else if s.mode = MODES.SINGLE_PLAYER ∧ s.xIsNext = false then s
  else
    let newBoard :=
      Function.update s.board idx
        (some (if s.xIsNext then Player.X else Player.O))
    handleBoardUpdate { s with board := newBoard } newBoard (!s.xIsNext)

/-- The `available` list of `makeAIMove`: indices of the empty squares,
in ascending order. -/
def availableSquares (b : Board) : List (Fin 9) :=
  (List.finRange 9).filter (fun i => (b i).isNone)

/-- `makeAIMove()`: place `O` on a random empty square.  The random draw
`Math.floor(Math.random() * available.length)` is embedded as
`r % available.length`, which ranges over exactly the indices the source
can draw. -/
def makeAIMove (s : GameState) (r : Nat) : GameState :=
  let available := availableSquares s.board
  if h : available.length = 0 then s
  else
    let move := available.get ⟨r % available.length,
      Nat.mod_lt r (Nat.pos_of_ne_zero h)⟩
    let newBoard := Function.update s.board move (some Player.O)
    handleBoardUpdate { s with board := newBoard } newBoard true

/-- The computer-move event as the component actually runs it: the
`useEffect` schedules `makeAIMove` only when
`mode === SINGLE_PLAYER && gameStarted && !gameOver && !xIsNext`,
and cancels the timer whenever the state changes first. -/
def aiMoveScheduled (s : GameState) (r : Nat) : GameState :=
  if s.mode = MODES.SINGLE_PLAYER ∧ s.gameStarted = true
      ∧ s.gameOver = false ∧ s.xIsNext = false then
    makeAIMove s r
  else s

/-- The externally triggerable operations of the engine. -/
inductive Event where
  | start (m : String)
  | restart
  | click (i : Fin 9)
  | aiTimer (r : Nat)

/-- One state transition of the component. -/
def stepEvent (s : GameState) : Event → GameState
  | Event.start m => startGame m s
  | Event.restart => restartGame s
  | Event.click i => handleSquareClick s i
  | Event.aiTimer r => aiMoveScheduled s r

/-- States the running component can actually be in. -/
inductive Reachable : GameState → Prop
  | init : Reachable initialState
  | step {s : GameState} (e : Event) : Reachable s → Reachable (stepEvent s e)

/-- The abstract `GameStatus` of the specification, derived from the
observable state: `gameOver` is set exactly by the win and draw branches
of `handleBoardUpdate`, which decide between them by `calculateWinner`
on the very board stored in the state. -/
inductive GameStatus where
  | NOT_STARTED
  | IN_PROGRESS
  | WON (w : Player)
  | DRAWN
deriving DecidableEq

/-- Abstraction function from component state to spec `GameStatus`. -/
def gameStatus (s : GameState) : GameStatus :=
  if s.gameStarted = false then GameStatus.NOT_STARTED
  else if s.gameOver = true then
    match calculateWinner s.board with
    | some w => GameStatus.WON w
    | none => GameStatus.DRAWN
  else GameStatus.IN_PROGRESS

/-! ## Branch lemmas for the handlers -/

theorem handleBoardUpdate_winner {nb : Board} {w : Player}
    (s : GameState) (x : Bool) (h : calculateWinner nb = some w) :
    handleBoardUpdate s nb x =
      { s with
        status := winStatusMsg s.mode w
        gameOver := true
        score := s.score.addWin w } := by
  unfold handleBoardUpdate
  rw [h]

theorem handleBoardUpdate_draw {nb : Board}
    (s : GameState) (x : Bool) (h : calculateWinner nb = none)
    (hf : boardFull nb) :
    handleBoardUpdate s nb x =
      { s with
        status := "It\x27s a draw!"
        gameOver := true
        score := { s.score with Draw := s.score.Draw + 1 } } := by
  unfold handleBoardUpdate
  rw [h]
  exact if_pos hf

theorem handleBoardUpdate_continue {nb : Board}
    (s : GameState) (x : Bool) (h : calculateWinner nb = none)
    (hf : ¬ boardFull nb) :
    handleBoardUpdate s nb x =
      { s with
        status := continueStatusMsg s.mode x
        xIsNext := x } := by
  unfold handleBoardUpdate
  rw [h]
  exact if_neg hf

theorem handleSquareClick_rejected {s : GameState} {idx : Fin 9}
    (h : s.gameStarted = false ∨ s.board idx ≠ none ∨ s.gameOver = true
      ∨ (s.mode = MODES.SINGLE_PLAYER ∧ s.xIsNext = false)) :
    handleSquareClick s idx = s := by
  unfold handleSquareClick
  rcases h with h | h | h | h
  · rw [if_pos (Or.inl h)]
  · rw [if_pos (Or.inr (Or.inl h))]
  · rw [if_pos (Or.inr (Or.inr h))]
  · by_cases h1 : s.gameStarted = false ∨ s.board idx ≠ none ∨ s.gameOver = true
    · rw [if_pos h1]
    · rw [if_neg h1, if_pos h]

theorem handleSquareClick_accepted {s : GameState} {idx : Fin 9}
    (h1 : s.gameStarted = true) (h2 : s.board idx = none)
    (h3 : s.gameOver = false)
    (h4 : ¬ (s.mode = MODES.SINGLE_PLAYER ∧ s.xIsNext = false)) :
    handleSquareClick s idx =
      handleBoardUpdate
        { s with board := (Function.update s.board idx
            (some (if s.xIsNext then Player.X else Player.O))) }
        (Function.update s.board idx
          (some (if s.xIsNext then Player.X else Player.O)))
        (!s.xIsNext) := by
  have hcond : ¬ (s.gameStarted = false ∨ s.board idx ≠ none
      ∨ s.gameOver = true) := by
    push_neg
    exact ⟨by simp [h1], h2, by simp [h3]⟩
  unfold handleSquareClick
  rw [if_neg hcond, if_neg h4]

theorem makeAIMove_accepted (s : GameState) (r : Nat)
    (h : (availableSquares s.board).length ≠ 0) :
    ∃ m ∈ availableSquares s.board,
      makeAIMove s r =
        handleBoardUpdate
          { s with board := Function.update s.board m (some Player.O) }
          (Function.update s.board m (some Player.O)) true := by
  refine ⟨(availableSquares s.board).get
    ⟨r % (availableSquares s.board).length,
      Nat.mod_lt r (Nat.pos_of_ne_zero h)⟩, List.get_mem _ _ _, ?_⟩
  unfold makeAIMove
  rw [dif_neg h]

theorem mem_availableSquares {b : Board} {m : Fin 9} :
    m ∈ availableSquares b ↔ b m = none := by
  simp [availableSquares, List.mem_filter, Option.isNone_iff_eq_none,
    List.mem_finRange]

/-! ## Counting placed symbols -/

/-- Number of cells of `b` holding symbol `p`. -/
def countSym (p : Player) (b : Board) : Nat :=
  (Finset.univ.filter (fun i => b i = some p)).card

/-- Number of non-empty cells of `b`. -/
def countPlaced (b : Board) : Nat :=
  (Finset.univ.filter (fun i => b i ≠ none)).card

theorem countPlaced_eq (b : Board) :
    countPlaced b = countSym Player.X b + countSym Player.O b := by
  unfold countPlaced countSym
  have hdis : Disjoint (Finset.univ.filter fun i => b i = some Player.X)
      (Finset.univ.filter fun i => b i = some Player.O) := by
    rw [Finset.disjoint_left]
    intro x hx hy
    simp only [Finset.mem_filter] at hx hy
    rw [hx.2] at hy
    simp at hy
  have hun : (Finset.univ.filter fun i => b i ≠ none)
      = (Finset.univ.filter fun i => b i = some Player.X)
        ∪ (Finset.univ.filter fun i => b i = some Player.O) := by
    ext x
    simp only [Finset.mem_filter, Finset.mem_union, Finset.mem_univ, true_and]
    cases hx : b x with
    | none => simp
    | some p => cases p <;> simp
  rw [hun, Finset.card_union_of_disjoint hdis]

theorem countSym_update {b : Board} {j : Fin 9} (q p : Player)
    (h : b j = none) :
    countSym p (Function.update b j (some q))
      = countSym p b + (if q = p then 1 else 0) := by
  by_cases hqp : q = p
  · subst hqp
    have key : (Finset.univ.filter
        fun i => Function.update b j (some q) i = some q)
        = insert j (Finset.univ.filter fun i => b i = some q) := by
      ext x
      by_cases hxj : x = j
      · subst hxj
        simp [Function.update_apply]
      · simp [Function.update_apply, hxj]
    unfold countSym
    rw [key, Finset.card_insert_of_not_mem (by simp [h]), if_pos rfl]
  · have key : (Finset.univ.filter
        fun i => Function.update b j (some q) i = some p)
        = Finset.univ.filter fun i => b i = some p := by
      ext x
      by_cases hxj : x = j
      · subst hxj
        simp [Function.update_apply, h, hqp]
      · simp [Function.update_apply, hxj]
    unfold countSym
    rw [key, if_neg hqp]
    simp

theorem countSym_initial (p : Player) : countSym p getInitialBoard = 0 := by
  cases p <;> decide

theorem three_le_countSym {b : Board} {w : Player} {i j k : Fin 9}
    (hij : i ≠ j) (hik : i ≠ k) (hjk : j ≠ k)
    (hi : b i = some w) (hj : b j = some w) (hk : b k = some w) :
    3 ≤ countSym w b := by
  have hsub : ({i, j, k} : Finset (Fin 9))
      ⊆ Finset.univ.filter (fun x => b x = some w) := by
    intro x hx
    simp only [Finset.mem_insert, Finset.mem_singleton] at hx
    rcases hx with rfl | rfl | rfl <;>
      simp [Finset.mem_filter, hi, hj, hk]
  have hcard : ({i, j, k} : Finset (Fin 9)).card = 3 := by
    rw [Finset.card_insert_of_not_mem (by simp [hij, hik]),
      Finset.card_insert_of_not_mem (by simp [hjk]),
      Finset.card_singleton]
  calc 3 = ({i, j, k} : Finset (Fin 9)).card := hcard.symm
    _ ≤ _ := Finset.card_le_card hsub

/-! ## Structure of the winner scan -/

/-- Specification-side reading of a matching line: all three cells hold
the same symbol `q`. -/
def lineFilledBy (b : Board) (l : Fin 9 × Fin 9 × Fin 9) (q : Player) :
    Prop :=
  b l.1 = some q ∧ b l.2.1 = some q ∧ b l.2.2 = some q

theorem lineMatches_iff {b : Board} {l : Fin 9 × Fin 9 × Fin 9} :
    lineMatches b l = true ↔ ∃ q, lineFilledBy b l q := by
  unfold lineMatches lineFilledBy
  cases hb : b l.1 with
  | none => simp [hb]
  | some q =>
    simp only [hb, Option.isSome_some, Bool.true_and, Bool.and_eq_true,
      decide_eq_true_eq]
    constructor
    · rintro ⟨ha, hc⟩
      exact ⟨q, rfl, ha.symm, hc.symm⟩
    · rintro ⟨q', hq1, hq2, hq3⟩
      cases hq1
      exact ⟨hq2.symm, hq3.symm⟩

theorem calculateWinner_some_elim {b : Board} {w : Player}
    (h : calculateWinner b = some w) :
    ∃ l ∈ winLines, lineFilledBy b l w := by
  cases hf : winLines.find? (lineMatches b) with
  | none =>
    have hn : calculateWinner b = none := by
      unfold calculateWinner
      rw [hf]
    rw [hn] at h
    cases h
  | some l =>
    have hcb : calculateWinner b = b l.1 := by
      unfold calculateWinner
      rw [hf]
    have h' : b l.1 = some w := by rw [← hcb]; exact h
    have hmem := List.mem_of_find?_eq_some hf
    have hmatch := List.find?_some hf
    obtain ⟨q, hq⟩ := lineMatches_iff.mp hmatch
    have hql : b l.1 = some q := hq.1
    rw [h'] at hql
    cases hql
    exact ⟨l, hmem, hq⟩

theorem winLines_component_ne :
    ∀ l ∈ winLines, l.1 ≠ l.2.1 ∧ l.1 ≠ l.2.2 ∧ l.2.1 ≠ l.2.2 := by
  intro l hl
  fin_cases hl <;> refine ⟨by decide, by decide, by decide⟩

/-- A winner forces at least three cells of that symbol on the board. -/
theorem three_le_of_winner {b : Board} {w : Player}
    (h : calculateWinner b = some w) : 3 ≤ countSym w b := by
  obtain ⟨l, hmem, hfill⟩ := calculateWinner_some_elim h
  obtain ⟨h12, h13, h23⟩ := winLines_component_ne l hmem
  exact three_le_countSym h12 h13 h23 hfill.1 hfill.2.1 hfill.2.2

/-! ## The state invariant of the running component -/

/-- `makeAIMove` with no empty square left returns unchanged state. -/
theorem makeAIMove_empty {s : GameState} (r : Nat)
    (h : (availableSquares s.board).length = 0) : makeAIMove s r = s := by
  unfold makeAIMove
  rw [dif_pos h]

/-- Invariant of every reachable component state: before the first
`startGame` everything is still at its initial value, and the placed-cell
counts respect alternating play (tied to whose turn it is while the game
is running, and within one of each other always). -/
def StateInv (s : GameState) : Prop :=
  (s.gameStarted = false →
    s.board = getInitialBoard ∧ s.xIsNext = true ∧ s.gameOver = false) ∧
  (s.gameOver = false →
    (s.xIsNext = true →
      countSym Player.X s.board = countSym Player.O s.board) ∧
    (s.xIsNext = false →
      countSym Player.X s.board = countSym Player.O s.board + 1)) ∧
  countSym Player.O s.board ≤ countSym Player.X s.board ∧
  countSym Player.X s.board ≤ countSym Player.O s.board + 1

theorem stateInv_resolve_aux {s : GameState} {idx : Fin 9} {sym : Player}
    (hs : s.gameStarted = true) (hb : s.board idx = none)
    (hcnt : (sym = Player.X ∧ s.xIsNext = true
        ∧ countSym Player.X s.board = countSym Player.O s.board)
      ∨ (sym = Player.O ∧ s.xIsNext = false
        ∧ countSym Player.X s.board = countSym Player.O s.board + 1)) :
    StateInv (handleBoardUpdate
      { s with board := (Function.update s.board idx (some sym)) }
      (Function.update s.board idx (some sym)) (!s.xIsNext)) := by
  have hX := countSym_update sym Player.X hb
  have hO := countSym_update sym Player.O hb
  have hcX : countSym Player.X (Function.update s.board idx (some sym))
        = countSym Player.X s.board + (if sym = Player.X then 1 else 0) :=
    hX
  have hcO : countSym Player.O (Function.update s.board idx (some sym))
        = countSym Player.O s.board + (if sym = Player.O then 1 else 0) :=
    hO
  have hif : (sym = Player.X ∧ (if sym = Player.X then 1 else 0) = 1
        ∧ (if sym = Player.O then 1 else 0) = 0)
      ∨ (sym = Player.O ∧ (if sym = Player.X then 1 else 0) = 0
        ∧ (if sym = Player.O then 1 else 0) = 1) := by
    cases sym
    · exact Or.inl ⟨rfl, by simp, by simp⟩
    · exact Or.inr ⟨rfl, by simp, by simp⟩
  cases hwin : calculateWinner (Function.update s.board idx (some sym)) with
  | some w =>
    rw [handleBoardUpdate_winner _ _ hwin]
    refine ⟨fun hh => Bool.noConfusion (hs.symm.trans hh),
      fun hh => Bool.noConfusion hh, ?_, ?_⟩
    · show countSym Player.O (Function.update s.board idx (some sym))
        ≤ countSym Player.X (Function.update s.board idx (some sym))
      rcases hcnt with ⟨h1, -, hcc⟩ | ⟨h1, -, hcc⟩ <;>
        rcases hif with ⟨h2, ha, hb'⟩ | ⟨h2, ha, hb'⟩ <;>
        first
          | omega
          | (rw [h1] at h2; cases h2)
    · show countSym Player.X (Function.update s.board idx (some sym))
        ≤ countSym Player.O (Function.update s.board idx (some sym)) + 1
      rcases hcnt with ⟨h1, -, hcc⟩ | ⟨h1, -, hcc⟩ <;>
        rcases hif with ⟨h2, ha, hb'⟩ | ⟨h2, ha, hb'⟩ <;>
        first
          | omega
          | (rw [h1] at h2; cases h2)
  | none =>
    by_cases hfull : boardFull (Function.update s.board idx (some sym))
    · rw [handleBoardUpdate_draw _ _ hwin hfull]
      refine ⟨fun hh => Bool.noConfusion (hs.symm.trans hh),
        fun hh => Bool.noConfusion hh, ?_, ?_⟩
      · show countSym Player.O (Function.update s.board idx (some sym))
          ≤ countSym Player.X (Function.update s.board idx (some sym))
        rcases hcnt with ⟨h1, -, hcc⟩ | ⟨h1, -, hcc⟩ <;>
          rcases hif with ⟨h2, ha, hb'⟩ | ⟨h2, ha, hb'⟩ <;>
          first
            | omega
            | (rw [h1] at h2; cases h2)
      · show countSym Player.X (Function.update s.board idx (some sym))
          ≤ countSym Player.O (Function.update s.board idx (some sym)) + 1
        rcases hcnt with ⟨h1, -, hcc⟩ | ⟨h1, -, hcc⟩ <;>
          rcases hif with ⟨h2, ha, hb'⟩ | ⟨h2, ha, hb'⟩ <;>
          first
            | omega
            | (rw [h1] at h2; cases h2)
    · rw [handleBoardUpdate_continue _ _ hwin hfull]
      rcases hcnt with ⟨rfl, hxn, hcc⟩ | ⟨rfl, hxn, hcc⟩
      · simp only [if_pos rfl] at hcX
        have hcO' : countSym Player.O (Function.update s.board idx
            (some Player.X)) = countSym Player.O s.board := by
          rw [hcO]
          simp
        refine ⟨fun hh => Bool.noConfusion (hs.symm.trans hh), ?_, ?_, ?_⟩
        · intro _
          constructor
          · intro hh
            have hh' : (!s.xIsNext) = true := hh
            rw [hxn] at hh'
            cases hh'
          · intro _
            show countSym Player.X (Function.update s.board idx
                (some Player.X))
              = countSym Player.O (Function.update s.board idx
                (some Player.X)) + 1
            omega
        · show countSym Player.O (Function.update s.board idx (some Player.X))
            ≤ countSym Player.X (Function.update s.board idx (some Player.X))
          omega
        · show countSym Player.X (Function.update s.board idx (some Player.X))
            ≤ countSym Player.O (Function.update s.board idx
              (some Player.X)) + 1
          omega
      · have hcX' : countSym Player.X (Function.update s.board idx
            (some Player.O)) = countSym Player.X s.board := by
          rw [hcX]
          simp
        simp only [if_pos rfl] at hcO
        refine ⟨fun hh => Bool.noConfusion (hs.symm.trans hh), ?_, ?_, ?_⟩
        · intro _
          constructor
          · intro _
            show countSym Player.X (Function.update s.board idx
                (some Player.O))
              = countSym Player.O (Function.update s.board idx
                (some Player.O))
            omega
          · intro hh
            have hh' : (!s.xIsNext) = false := hh
            rw [hxn] at hh'
            cases hh'
        · show countSym Player.O (Function.update s.board idx (some Player.O))
            ≤ countSym Player.X (Function.update s.board idx (some Player.O))
          omega
        · show countSym Player.X (Function.update s.board idx (some Player.O))
            ≤ countSym Player.O (Function.update s.board idx
              (some Player.O)) + 1
          omega

theorem stateInv_step {s : GameState} (e : Event) (hInv : StateInv s) :
    StateInv (stepEvent s e) := by
  cases e with
  | start m =>
    show StateInv (startGame m s)
    refine ⟨fun hh => Bool.noConfusion hh, ?_, ?_, ?_⟩
    · intro _
      constructor
      · intro _
        show countSym Player.X getInitialBoard
          = countSym Player.O getInitialBoard
        rw [countSym_initial, countSym_initial]
      · intro hh
        exact Bool.noConfusion hh
    · show countSym Player.O getInitialBoard ≤ countSym Player.X getInitialBoard
      rw [countSym_initial, countSym_initial]
    · show countSym Player.X getInitialBoard
        ≤ countSym Player.O getInitialBoard + 1
      rw [countSym_initial, countSym_initial]
      omega
  | restart =>
    show StateInv (restartGame s)
    refine ⟨fun _ => ⟨rfl, rfl, rfl⟩, ?_, ?_, ?_⟩
    · intro _
      constructor
      · intro _
        show countSym Player.X getInitialBoard
          = countSym Player.O getInitialBoard
        rw [countSym_initial, countSym_initial]
      · intro hh
        exact Bool.noConfusion hh
    · show countSym Player.O getInitialBoard ≤ countSym Player.X getInitialBoard
      rw [countSym_initial, countSym_initial]
    · show countSym Player.X getInitialBoard
        ≤ countSym Player.O getInitialBoard + 1
      rw [countSym_initial, countSym_initial]
      omega
  | click i =>
    show StateInv (handleSquareClick s i)
    by_cases h1 : s.gameStarted = false ∨ s.board i ≠ none ∨ s.gameOver = true
    · rw [handleSquareClick_rejected (h1.imp id (fun h => h.imp id Or.inl))]
      exact hInv
    · push_neg at h1
      obtain ⟨hg1, hg2, hg3⟩ := h1
      have hs' : s.gameStarted = true := by
        revert hg1
        cases s.gameStarted <;> simp
      have hgo : s.gameOver = false := by
        revert hg3
        cases s.gameOver <;> simp
      by_cases h2 : s.mode = MODES.SINGLE_PLAYER ∧ s.xIsNext = false
      · rw [handleSquareClick_rejected (Or.inr (Or.inr (Or.inr h2)))]
        exact hInv
      · rw [handleSquareClick_accepted hs' hg2 hgo h2]
        obtain ⟨-, hturn, -, -⟩ := hInv
        cases hxn : s.xIsNext with
        | true =>
          have hres := stateInv_resolve_aux hs' hg2
            (Or.inl ⟨rfl, hxn, (hturn hgo).1 hxn⟩)
          simpa [hxn] using hres
        | false =>
          have hres := stateInv_resolve_aux hs' hg2
            (Or.inr ⟨rfl, hxn, (hturn hgo).2 hxn⟩)
          simpa [hxn] using hres
  | aiTimer r =>
    show StateInv (aiMoveScheduled s r)
    unfold aiMoveScheduled
    by_cases hg : s.mode = MODES.SINGLE_PLAYER ∧ s.gameStarted = true
        ∧ s.gameOver = false ∧ s.xIsNext = false
    · rw [if_pos hg]
      obtain ⟨-, hs', hgo, hxn⟩ := hg
      by_cases hlen : (availableSquares s.board).length = 0
      · rw [makeAIMove_empty r hlen]
        exact hInv
      · obtain ⟨m, hmem, heq⟩ := makeAIMove_accepted s r hlen
        rw [heq]
        obtain ⟨-, hturn, -, -⟩ := hInv
        have hres := stateInv_resolve_aux hs'
          (mem_availableSquares.mp hmem)
          (Or.inr ⟨rfl, hxn, (hturn hgo).2 hxn⟩)
        simpa [hxn] using hres
    · rw [if_neg hg]
      exact hInv

theorem reachable_stateInv {s : GameState} (h : Reachable s) : StateInv s := by
  induction h with
  | init =>
    refine ⟨fun _ => ⟨rfl, rfl, rfl⟩, ?_, ?_, ?_⟩
    · intro _
      constructor
      · intro _
        show countSym Player.X getInitialBoard
          = countSym Player.O getInitialBoard
        rw [countSym_initial, countSym_initial]
      · intro hh
        exact Bool.noConfusion hh
    · show countSym Player.O getInitialBoard ≤ countSym Player.X getInitialBoard
      rw [countSym_initial, countSym_initial]
    · show countSym Player.X getInitialBoard
        ≤ countSym Player.O getInitialBoard + 1
      rw [countSym_initial, countSym_initial]
      omega
  | step e _ ih => exact stateInv_step e ih

/-! ## Concrete states used to instantiate the theorems -/

/-- A fresh two-player game. -/
def startedState : GameState := startGame MODES.TWO_PLAYER initialState

/-- X completed the top row after O played 3 and 4. -/
def winBoard : Board := fun i =>
  if i.val < 3 then some Player.X
  else if i.val < 5 then some Player.O else none

/-- A finished game (X won on the top row). -/
def overState : GameState :=
  { startedState with board := winBoard, gameOver := true }

/-- X on 0 and 1, O on 3 and 4, X to move: clicking 2 wins. -/
def almostWinBoard : Board := fun i =>
  if i.val = 0 ∨ i.val = 1 then some Player.X
  else if i.val = 3 ∨ i.val = 4 then some Player.O else none

/-- Mid-game state one move away from an X win. -/
def almostWinState : GameState :=
  { startedState with board := almostWinBoard }

/-- A full board with no three-in-a-row (X at 0,2,5,6,7; O at 1,3,4,8). -/
def fullDrawBoard : Board := fun i =>
  if i.val = 1 ∨ i.val = 3 ∨ i.val = 4 ∨ i.val = 8 then some Player.O
  else some Player.X

/-- A game whose board just became full with no winner. -/
def drawState : GameState := { startedState with board := fullDrawBoard }

/-- A single-player game where it is the computer's turn. -/
def aiState : GameState :=
  { startedState with
    mode := MODES.SINGLE_PLAYER
    xIsNext := false
    board := (fun i => if i = (0 : Fin 9) then some Player.X else none) }

/-! ## The claims -/

/-- C5: once `gameOver` is set (the game is WON or DRAWN), every further
`handleSquareClick` and every scheduled computer move leave the whole
state — board, turn, status, score — unchanged: the click handler
returns at its `gameOver` guard, and the `useEffect` never schedules
`makeAIMove` once `gameOver` holds. -/
theorem claim_C5 (s : GameState) (idx : Fin 9) (r : Nat)
    (h : s.gameOver = true) :
    handleSquareClick s idx = s ∧ aiMoveScheduled s r = s := by
  constructor
  · exact handleSquareClick_rejected (Or.inr (Or.inr (Or.inl h)))
  · unfold aiMoveScheduled
    rw [if_neg]
    rintro ⟨-, -, hgo, -⟩
    rw [h] at hgo
    cases hgo

/-- Witness for C5 at a concrete finished game. -/
theorem claim_C5_witness :
    handleSquareClick overState 5 = overState
      ∧ aiMoveScheduled overState 0 = overState :=
  claim_C5 overState 5 0 (by decide)

/-- C2: `handleSquareClick` is a rejected no-op (the state, hence Board,
Turn, GameStatus and Score, is returned unchanged) exactly when the game
has not started, the cell is occupied, the game is over, or in
SINGLE_PLAYER mode it is not X's turn; in every other case it places the
current turn's symbol at `idx` and runs the resolution step
`handleBoardUpdate` on the post-placement board. -/
theorem claim_C2 (s : GameState) (idx : Fin 9) :
    (s.gameStarted = false ∨ s.board idx ≠ none ∨ s.gameOver = true
        ∨ (s.mode = MODES.SINGLE_PLAYER ∧ s.xIsNext = false) →
      handleSquareClick s idx = s)
    ∧ (s.gameStarted = true → s.board idx = none → s.gameOver = false →
        ¬ (s.mode = MODES.SINGLE_PLAYER ∧ s.xIsNext = false) →
        handleSquareClick s idx =
          handleBoardUpdate
            { s with board := (Function.update s.board idx
                (some (if s.xIsNext then Player.X else Player.O))) }
            (Function.update s.board idx
              (some (if s.xIsNext then Player.X else Player.O)))
            (!s.xIsNext)) :=
  ⟨handleSquareClick_rejected,
   fun h1 h2 h3 h4 => handleSquareClick_accepted h1 h2 h3 h4⟩

/-- Witness for C2: a rejected click before start and an accepted click
in a fresh game. -/
theorem claim_C2_witness :
    handleSquareClick initialState 0 = initialState
    ∧ handleSquareClick startedState 4 =
        handleBoardUpdate
          { startedState with board := (Function.update startedState.board 4
              (some (if startedState.xIsNext then Player.X else Player.O))) }
          (Function.update startedState.board 4
            (some (if startedState.xIsNext then Player.X else Player.O)))
          (!startedState.xIsNext) :=
  ⟨(claim_C2 initialState 0).1 (Or.inl rfl),
   (claim_C2 startedState 4).2 rfl rfl rfl (by decide)⟩

/-- C8 counterexample: `startGame` performs no validation of its mode
argument.  Called with a string that is neither `TWO_PLAYER` nor
`SINGLE_PLAYER`, it is not a no-op: it stores the invalid mode and
starts a game. -/
theorem claim_C8_counterexample :
    ("BOGUS_MODE" ≠ MODES.TWO_PLAYER ∧ "BOGUS_MODE" ≠ MODES.SINGLE_PLAYER)
    ∧ startGame "BOGUS_MODE" initialState ≠ initialState
    ∧ (startGame "BOGUS_MODE" initialState).mode = "BOGUS_MODE"
    ∧ (startGame "BOGUS_MODE" initialState).gameStarted = true := by
  exact ⟨⟨by decide, by decide⟩, by decide, rfl, rfl⟩

/-- C8 (amended): `startGame(mode)` sets Mode to the given value — valid
or not, there is no validity check — resets the board to empty, sets
Turn = X, `started` = true, clears `gameOver` (so the derived GameStatus
is IN_PROGRESS), and leaves Score untouched. -/
theorem claim_C8 (m : String) (s : GameState) :
    (startGame m s).mode = m
    ∧ (startGame m s).board = getInitialBoard
    ∧ (startGame m s).xIsNext = true
    ∧ (startGame m s).gameStarted = true
    ∧ (startGame m s).gameOver = false
    ∧ gameStatus (startGame m s) = GameStatus.IN_PROGRESS
    ∧ (startGame m s).score = s.score := by
  refine ⟨rfl, rfl, rfl, rfl, rfl, ?_, rfl⟩
  unfold gameStatus
  rw [if_neg (fun hh => Bool.noConfusion hh),
    if_neg (fun hh => Bool.noConfusion hh)]

/-- C6 counterexample: `restartGame` is not guarded by the started flag
and is not a no-op before a game has started: it overwrites the status
message. -/
theorem claim_C6_counterexample :
    initialState.gameStarted = false
      ∧ restartGame initialState ≠ initialState :=
  ⟨rfl, by decide⟩

/-- C6 (amended): `restartGame` unconditionally resets the board to
empty, sets Turn = X and clears `gameOver` (so GameStatus is IN_PROGRESS
whenever a game has been started), preserving Mode, Score and the
started flag.  It has no started-guard; but in any reachable state where
no game has started, board, turn, game-over flag and derived GameStatus
are already at their reset values, so only the status message changes. -/
theorem claim_C6 (s : GameState) :
    (restartGame s).board = getInitialBoard
    ∧ (restartGame s).xIsNext = true
    ∧ (restartGame s).gameOver = false
    ∧ (restartGame s).mode = s.mode
    ∧ (restartGame s).score = s.score
    ∧ (restartGame s).gameStarted = s.gameStarted
    ∧ (s.gameStarted = true →
        gameStatus (restartGame s) = GameStatus.IN_PROGRESS)
    ∧ (Reachable s → s.gameStarted = false →
        (restartGame s).board = s.board
        ∧ (restartGame s).xIsNext = s.xIsNext
        ∧ (restartGame s).gameOver = s.gameOver
        ∧ gameStatus (restartGame s) = gameStatus s) := by
  refine ⟨rfl, rfl, rfl, rfl, rfl, rfl, ?_, ?_⟩
  · intro h
    have h1 : ¬ ((restartGame s).gameStarted = false) := fun hh =>
      Bool.noConfusion (h.symm.trans hh)
    have h2 : ¬ ((restartGame s).gameOver = true) := fun hh =>
      Bool.noConfusion hh
    unfold gameStatus
    rw [if_neg h1, if_neg h2]
  · intro hr hns
    obtain ⟨hinit, -, -⟩ := reachable_stateInv hr
    obtain ⟨hbd, hxn, hgo⟩ := hinit hns
    refine ⟨(rfl : (restartGame s).board = getInitialBoard).trans hbd.symm,
      (rfl : (restartGame s).xIsNext = true).trans hxn.symm,
      (rfl : (restartGame s).gameOver = false).trans hgo.symm, ?_⟩
    have h1 : (restartGame s).gameStarted = false := hns
    unfold gameStatus
    rw [if_pos h1, if_pos hns]

/-- Witness for C6: restart of a running game keeps it in progress, and
restart of the (reachable) initial state changes nothing but the status
message. -/
theorem claim_C6_witness :
    gameStatus (restartGame startedState) = GameStatus.IN_PROGRESS
    ∧ ((restartGame initialState).board = initialState.board
      ∧ (restartGame initialState).xIsNext = initialState.xIsNext
      ∧ (restartGame initialState).gameOver = initialState.gameOver
      ∧ gameStatus (restartGame initialState) = gameStatus initialState) :=
  ⟨(claim_C6 startedState).2.2.2.2.2.2.1 rfl,
   (claim_C6 initialState).2.2.2.2.2.2.2 Reachable.init rfl⟩

/-- Status abstraction in the WON case. -/
theorem gameStatus_won {s : GameState} {w : Player}
    (h1 : s.gameStarted = true) (h2 : s.gameOver = true)
    (h3 : calculateWinner s.board = some w) :
    gameStatus s = GameStatus.WON w := by
  unfold gameStatus
  rw [if_neg (fun hh => Bool.noConfusion (h1.symm.trans hh)), if_pos h2, h3]

/-- Status abstraction in the DRAWN case. -/
theorem gameStatus_drawn {s : GameState}
    (h1 : s.gameStarted = true) (h2 : s.gameOver = true)
    (h3 : calculateWinner s.board = none) :
    gameStatus s = GameStatus.DRAWN := by
  unfold gameStatus
  rw [if_neg (fun hh => Bool.noConfusion (h1.symm.trans hh)), if_pos h2, h3]

/-- Status abstraction while the game is running. -/
theorem gameStatus_inProgress {s : GameState}
    (h1 : s.gameStarted = true) (h2 : s.gameOver = false) :
    gameStatus s = GameStatus.IN_PROGRESS := by
  unfold gameStatus
  rw [if_neg (fun hh => Bool.noConfusion (h1.symm.trans hh)),
    if_neg (fun hh => Bool.noConfusion (h2.symm.trans hh))]

/-- C1: every accepted move — human or computer — runs the resolution
step `handleBoardUpdate` exactly once, on the post-placement board
(first two blocks); and the resolution step checks the winner strictly
first: a winner yields WON(winner) with that player's score counter
incremented by exactly 1 and the other counters unchanged, with no
fullness condition attending the win branch; otherwise a full board
yields DRAWN with Draw incremented by exactly 1; otherwise the turn
flips to the given next player and the game stays IN_PROGRESS with no
score change (third block). -/
theorem claim_C1 :
    (∀ (s : GameState) (idx : Fin 9),
      s.gameStarted = true → s.board idx = none → s.gameOver = false →
      ¬ (s.mode = MODES.SINGLE_PLAYER ∧ s.xIsNext = false) →
      handleSquareClick s idx =
        handleBoardUpdate
          { s with board := (Function.update s.board idx
              (some (if s.xIsNext then Player.X else Player.O))) }
          (Function.update s.board idx
            (some (if s.xIsNext then Player.X else Player.O)))
          (!s.xIsNext))
    ∧ (∀ (s : GameState) (r : Nat),
        s.mode = MODES.SINGLE_PLAYER → s.gameStarted = true →
        s.gameOver = false → s.xIsNext = false →
        (availableSquares s.board).length ≠ 0 →
        ∃ m ∈ availableSquares s.board,
          aiMoveScheduled s r =
            handleBoardUpdate
              { s with board := (Function.update s.board m (some Player.O)) }
              (Function.update s.board m (some Player.O)) true)
    ∧ (∀ (s : GameState) (x : Bool),
        s.gameStarted = true → s.gameOver = false →
        (∀ w, calculateWinner s.board = some w →
          gameStatus (handleBoardUpdate s s.board x) = GameStatus.WON w
          ∧ (handleBoardUpdate s s.board x).score.X
              = s.score.X + (if w = Player.X then 1 else 0)
          ∧ (handleBoardUpdate s s.board x).score.O
              = s.score.O + (if w = Player.O then 1 else 0)
          ∧ (handleBoardUpdate s s.board x).score.Draw = s.score.Draw)
        ∧ (calculateWinner s.board = none → boardFull s.board →
          gameStatus (handleBoardUpdate s s.board x) = GameStatus.DRAWN
          ∧ (handleBoardUpdate s s.board x).score.X = s.score.X
          ∧ (handleBoardUpdate s s.board x).score.O = s.score.O
          ∧ (handleBoardUpdate s s.board x).score.Draw = s.score.Draw + 1)
        ∧ (calculateWinner s.board = none → ¬ boardFull s.board →
          gameStatus (handleBoardUpdate s s.board x) = GameStatus.IN_PROGRESS
          ∧ (handleBoardUpdate s s.board x).xIsNext = x
          ∧ (handleBoardUpdate s s.board x).score = s.score)) := by
  refine ⟨fun s idx h1 h2 h3 h4 => handleSquareClick_accepted h1 h2 h3 h4,
    ?_, ?_⟩
  · intro s r hm hs hg hx hlen
    obtain ⟨m, hmem, heq⟩ := makeAIMove_accepted s r hlen
    refine ⟨m, hmem, ?_⟩
    rw [← heq]
    unfold aiMoveScheduled
    rw [if_pos ⟨hm, hs, hg, hx⟩]
  · intro s x hs hg
    refine ⟨?_, ?_, ?_⟩
    · intro w hw
      rw [handleBoardUpdate_winner _ _ hw]
      exact ⟨gameStatus_won hs rfl hw,
        by cases w <;> simp [Score.addWin],
        by cases w <;> simp [Score.addWin],
        by cases w <;> simp [Score.addWin]⟩
    · intro hw hfull
      rw [handleBoardUpdate_draw _ _ hw hfull]
      exact ⟨gameStatus_drawn hs rfl hw, rfl, rfl, rfl⟩
    · intro hw hfull
      rw [handleBoardUpdate_continue _ _ hw hfull]
      exact ⟨gameStatus_inProgress hs hg, rfl, rfl⟩

/-- A running game whose board already shows the completed top row. -/
def wonPendingState : GameState := { startedState with board := winBoard }

/-- Witness for C1: an accepted human click, an accepted computer move,
and the three resolution outcomes at concrete boards. -/
theorem claim_C1_witness :
    handleSquareClick startedState 0 =
      handleBoardUpdate
        { startedState with board := (Function.update startedState.board 0
            (some (if startedState.xIsNext then Player.X else Player.O))) }
        (Function.update startedState.board 0
          (some (if startedState.xIsNext then Player.X else Player.O)))
        (!startedState.xIsNext)
    ∧ (∃ m ∈ availableSquares aiState.board,
        aiMoveScheduled aiState 0 =
          handleBoardUpdate
            { aiState with board := (Function.update aiState.board m
                (some Player.O)) }
            (Function.update aiState.board m (some Player.O)) true)
    ∧ gameStatus (handleBoardUpdate wonPendingState wonPendingState.board
        true) = GameStatus.WON Player.X
    ∧ gameStatus (handleBoardUpdate drawState drawState.board true)
        = GameStatus.DRAWN
    ∧ (handleBoardUpdate startedState startedState.board true).xIsNext
        = true :=
  ⟨claim_C1.1 startedState 0 rfl rfl rfl (by decide),
   claim_C1.2.1 aiState 0 rfl rfl rfl rfl (by decide),
   ((claim_C1.2.2 wonPendingState true rfl rfl).1 Player.X (by decide)).1,
   ((claim_C1.2.2 drawState true rfl rfl).2.1 (by decide) (by decide)).1,
   ((claim_C1.2.2 startedState true rfl rfl).2.2 (by decide) (by decide)).2.1⟩

/-- C9 counterexample: the claim says Turn flips on every accepted move,
but an accepted move that wins the game leaves the turn flag untouched:
`handleBoardUpdate` only calls `setXIsNext` in its continue branch.
Here X (to move) clicks square 2, wins — and `xIsNext` is still true. -/
theorem claim_C9_counterexample :
    almostWinState.gameStarted = true
    ∧ almostWinState.board 2 = none
    ∧ almostWinState.gameOver = false
    ∧ almostWinState.xIsNext = true
    ∧ (handleSquareClick almostWinState 2).gameOver = true
    ∧ (handleSquareClick almostWinState 2).board ≠ almostWinState.board
    ∧ (handleSquareClick almostWinState 2).xIsNext = true := by
  exact ⟨rfl, by decide, rfl, rfl, by decide, by decide, by decide⟩

/-- C9 (amended): Turn is always initialized to X by `startGame` and
`restartGame`; an accepted move — human, or computer with at least one
empty cell — whose resolution leaves the game in progress flips Turn
exactly once to the other symbol; an accepted move that ends the game
leaves Turn unchanged (it is irrelevant from then on). -/
theorem claim_C9 :
    (∀ (m : String) (s : GameState), (startGame m s).xIsNext = true)
    ∧ (∀ s : GameState, (restartGame s).xIsNext = true)
    ∧ (∀ (s : GameState) (idx : Fin 9),
        s.gameStarted = true → s.board idx = none → s.gameOver = false →
        ¬ (s.mode = MODES.SINGLE_PLAYER ∧ s.xIsNext = false) →
        ((handleSquareClick s idx).gameOver = false →
          (handleSquareClick s idx).xIsNext = !s.xIsNext)
        ∧ ((handleSquareClick s idx).gameOver = true →
          (handleSquareClick s idx).xIsNext = s.xIsNext))
    ∧ (∀ (s : GameState) (r : Nat),
        s.mode = MODES.SINGLE_PLAYER → s.gameStarted = true →
        s.gameOver = false → s.xIsNext = false →
        (availableSquares s.board).length ≠ 0 →
        ((aiMoveScheduled s r).gameOver = false →
          (aiMoveScheduled s r).xIsNext = !s.xIsNext)
        ∧ ((aiMoveScheduled s r).gameOver = true →
          (aiMoveScheduled s r).xIsNext = s.xIsNext)) := by
  refine ⟨fun m s => rfl, fun s => rfl, ?_, ?_⟩
  · intro s idx h1 h2 h3 h4
    rw [handleSquareClick_accepted h1 h2 h3 h4]
    cases hw : calculateWinner (Function.update s.board idx
        (some (if s.xIsNext then Player.X else Player.O))) with
    | some w =>
      rw [handleBoardUpdate_winner _ _ hw]
      exact ⟨fun hh => Bool.noConfusion hh, fun _ => rfl⟩
    | none =>
      by_cases hfull : boardFull (Function.update s.board idx
          (some (if s.xIsNext then Player.X else Player.O)))
      · rw [handleBoardUpdate_draw _ _ hw hfull]
        exact ⟨fun hh => Bool.noConfusion hh, fun _ => rfl⟩
      · rw [handleBoardUpdate_continue _ _ hw hfull]
        exact ⟨fun _ => rfl,
          fun hh => Bool.noConfusion (h3.symm.trans hh)⟩
  · intro s r hm hs hg hx hlen
    have hsch : aiMoveScheduled s r = makeAIMove s r := by
      unfold aiMoveScheduled
      rw [if_pos ⟨hm, hs, hg, hx⟩]
    obtain ⟨m, hmem, heq⟩ := makeAIMove_accepted s r hlen
    rw [hsch, heq]
    cases hw : calculateWinner (Function.update s.board m (some Player.O))
      with
    | some w =>
      rw [handleBoardUpdate_winner _ _ hw]
      exact ⟨fun hh => Bool.noConfusion hh, fun _ => rfl⟩
    | none =>
      by_cases hfull : boardFull (Function.update s.board m (some Player.O))
      · rw [handleBoardUpdate_draw _ _ hw hfull]
        exact ⟨fun hh => Bool.noConfusion hh, fun _ => rfl⟩
      · rw [handleBoardUpdate_continue _ _ hw hfull]
        refine ⟨fun _ => ?_, fun hh => Bool.noConfusion (hg.symm.trans hh)⟩
        show true = !s.xIsNext
        rw [hx]
        rfl

/-- Witness for C9: start and restart give the turn to X; a quiet click
flips the turn, the winning click from the counterexample state keeps
it, and a computer reply hands the turn back to X. -/
theorem claim_C9_witness :
    (startGame MODES.SINGLE_PLAYER initialState).xIsNext = true
    ∧ (restartGame initialState).xIsNext = true
    ∧ (handleSquareClick startedState 8).xIsNext = !startedState.xIsNext
    ∧ (handleSquareClick almostWinState 2).xIsNext = almostWinState.xIsNext
    ∧ (aiMoveScheduled aiState 3).xIsNext = !aiState.xIsNext :=
  ⟨claim_C9.1 MODES.SINGLE_PLAYER initialState,
   claim_C9.2.1 initialState,
   (claim_C9.2.2.1 startedState 8 rfl rfl rfl (by decide)).1 (by decide),
   (claim_C9.2.2.1 almostWinState 2 rfl (by decide) rfl (by decide)).2
     (by decide),
   (claim_C9.2.2.2 aiState 3 rfl rfl rfl rfl (by decide)).1 (by decide)⟩

/-- C4: the score is bumped exactly once per completed game — when the
resolution step first sets `gameOver`, exactly one of the three counters
goes up by exactly 1 (first block); a resolution that leaves the game
running never touches the score (second block); once the game is over,
the move operations are score-preserving no-ops (third block); and
`restartGame` preserves the score (fourth block). -/
theorem claim_C4 :
    (∀ (s : GameState) (nb : Board) (x : Bool),
      s.gameOver = false → (handleBoardUpdate s nb x).gameOver = true →
      (((handleBoardUpdate s nb x).score.X = s.score.X + 1
          ∧ (handleBoardUpdate s nb x).score.O = s.score.O
          ∧ (handleBoardUpdate s nb x).score.Draw = s.score.Draw)
        ∨ ((handleBoardUpdate s nb x).score.X = s.score.X
          ∧ (handleBoardUpdate s nb x).score.O = s.score.O + 1
          ∧ (handleBoardUpdate s nb x).score.Draw = s.score.Draw)
        ∨ ((handleBoardUpdate s nb x).score.X = s.score.X
          ∧ (handleBoardUpdate s nb x).score.O = s.score.O
          ∧ (handleBoardUpdate s nb x).score.Draw = s.score.Draw + 1)))
    ∧ (∀ (s : GameState) (nb : Board) (x : Bool),
        (handleBoardUpdate s nb x).gameOver = false →
        (handleBoardUpdate s nb x).score = s.score)
    ∧ (∀ (s : GameState) (idx : Fin 9) (r : Nat), s.gameOver = true →
        (handleSquareClick s idx).score = s.score
        ∧ (aiMoveScheduled s r).score = s.score)
    ∧ (∀ s : GameState, (restartGame s).score = s.score) := by
  refine ⟨?_, ?_, ?_, fun s => rfl⟩
  · intro s nb x hg hend
    cases hw : calculateWinner nb with
    | some w =>
      rw [handleBoardUpdate_winner _ _ hw]
      cases w with
      | X => exact Or.inl (by simp [Score.addWin])
      | O => exact Or.inr (Or.inl (by simp [Score.addWin]))
    | none =>
      by_cases hfull : boardFull nb
      · rw [handleBoardUpdate_draw _ _ hw hfull]
        exact Or.inr (Or.inr ⟨rfl, rfl, rfl⟩)
      · rw [handleBoardUpdate_continue _ _ hw hfull] at hend
        exact Bool.noConfusion (hg.symm.trans hend)
  · intro s nb x hend
    cases hw : calculateWinner nb with
    | some w =>
      rw [handleBoardUpdate_winner _ _ hw] at hend
      exact Bool.noConfusion hend
    | none =>
      by_cases hfull : boardFull nb
      · rw [handleBoardUpdate_draw _ _ hw hfull] at hend
        exact Bool.noConfusion hend
      · rw [handleBoardUpdate_continue _ _ hw hfull]
  · intro s idx r h
    constructor
    · rw [handleSquareClick_rejected (Or.inr (Or.inr (Or.inl h)))]
    · unfold aiMoveScheduled
      rw [if_neg]
      rintro ⟨-, -, hgo, -⟩
      rw [h] at hgo
      cases hgo

/-- Witness for C4: the winning resolution bumps exactly one counter, a
quiet resolution keeps the score, move operations after game over keep
the score, and restart keeps the score. -/
theorem claim_C4_witness :
    (((handleBoardUpdate wonPendingState wonPendingState.board true).score.X
        = wonPendingState.score.X + 1
      ∧ (handleBoardUpdate wonPendingState wonPendingState.board
          true).score.O = wonPendingState.score.O
      ∧ (handleBoardUpdate wonPendingState wonPendingState.board
          true).score.Draw = wonPendingState.score.Draw)
      ∨ ((handleBoardUpdate wonPendingState wonPendingState.board
          true).score.X = wonPendingState.score.X
        ∧ (handleBoardUpdate wonPendingState wonPendingState.board
            true).score.O = wonPendingState.score.O + 1
        ∧ (handleBoardUpdate wonPendingState wonPendingState.board
            true).score.Draw = wonPendingState.score.Draw)
      ∨ ((handleBoardUpdate wonPendingState wonPendingState.board
          true).score.X = wonPendingState.score.X
        ∧ (handleBoardUpdate wonPendingState wonPendingState.board
            true).score.O = wonPendingState.score.O
        ∧ (handleBoardUpdate wonPendingState wonPendingState.board
            true).score.Draw = wonPendingState.score.Draw + 1))
    ∧ (handleBoardUpdate startedState startedState.board true).score
        = startedState.score
    ∧ ((handleSquareClick overState 7).score = overState.score
      ∧ (aiMoveScheduled overState 2).score = overState.score)
    ∧ (restartGame overState).score = overState.score :=
  ⟨claim_C4.1 wonPendingState wonPendingState.board true rfl (by decide),
   claim_C4.2.1 startedState startedState.board true (by decide),
   claim_C4.2.2.1 overState 7 2 (by decide),
   claim_C4.2.2.2 overState⟩

/-- C10: the two independent line scans of `calculateWinner` and
`boardWinnerSquares` agree on every board: one finds a winner exactly
when the other returns a non-empty line, and then the three returned
squares all hold exactly the returned symbol. -/
theorem claim_C10 (b : Board) :
    ((calculateWinner b).isSome = true ↔ boardWinnerSquares b ≠ [])
    ∧ (∀ p, calculateWinner b = some p →
        ∃ i j k, boardWinnerSquares b = [i, j, k]
          ∧ b i = some p ∧ b j = some p ∧ b k = some p) := by
  cases hf : winLines.find? (lineMatches b) with
  | none =>
    have h1 : calculateWinner b = none := by
      unfold calculateWinner
      rw [hf]
    have h2 : boardWinnerSquares b = [] := by
      unfold boardWinnerSquares
      rw [hf]
    constructor
    · rw [h1, h2]
      simp
    · intro p hp
      rw [h1] at hp
      cases hp
  | some l =>
    have hmatch := List.find?_some hf
    obtain ⟨q, hq⟩ := lineMatches_iff.mp hmatch
    have h1 : calculateWinner b = b l.1 := by
      unfold calculateWinner
      rw [hf]
    have h2 : boardWinnerSquares b = [l.1, l.2.1, l.2.2] := by
      unfold boardWinnerSquares
      rw [hf]
    constructor
    · rw [h1, h2, hq.1]
      simp
    · intro p hp
      rw [h1] at hp
      obtain rfl : q = p := Option.some.inj (hq.1.symm.trans hp)
      exact ⟨l.1, l.2.1, l.2.2, h2, hq.1, hq.2.1, hq.2.2⟩

/-- Witness for C10 on the top-row win board. -/
theorem claim_C10_witness :
    ∃ i j k, boardWinnerSquares winBoard = [i, j, k]
      ∧ winBoard i = some Player.X ∧ winBoard j = some Player.X
      ∧ winBoard k = some Player.X :=
  (claim_C10 winBoard).2 Player.X (by decide)

/-- A board holding only the three X of the top row. -/
def rowOnlyBoard : Board := fun i =>
  if i.val < 3 then some Player.X else none

/-- A legal-looking sparse board: X at 0 and 8, O at 4. -/
def sparseBoard : Board := fun i =>
  if i = (0 : Fin 9) then some Player.X
  else if i = 4 then some Player.O
  else if i = 8 then some Player.X else none

/-- C7 counterexample: over arbitrary 9-cell boards the claim fails —
`calculateWinner` is a pure line scan, so a board holding only the three
X of the top row (3 placed symbols, fewer than 5) already has a
winner. -/
theorem claim_C7_counterexample :
    countPlaced rowOnlyBoard = 3
      ∧ calculateWinner rowOnlyBoard = some Player.X := by
  exact ⟨by decide, by decide⟩

/-- C7 (amended): `calculateWinner` returns no winner for the empty
board; and on every board satisfying the alternating-play count
invariant `countO ≤ countX ≤ countO + 1` — which holds for the board of
every reachable state, third block — fewer than 5 placed symbols implies
no winner. -/
theorem claim_C7 :
    calculateWinner getInitialBoard = none
    ∧ (∀ b : Board,
        countSym Player.O b ≤ countSym Player.X b →
        countSym Player.X b ≤ countSym Player.O b + 1 →
        countPlaced b < 5 → calculateWinner b = none)
    ∧ (∀ s : GameState, Reachable s →
        countSym Player.O s.board ≤ countSym Player.X s.board
        ∧ countSym Player.X s.board ≤ countSym Player.O s.board + 1) := by
  refine ⟨by decide, ?_, ?_⟩
  · intro b h1 h2 h3
    cases hcw : calculateWinner b with
    | none => rfl
    | some w =>
      exfalso
      have h3le := three_le_of_winner hcw
      have hpl := countPlaced_eq b
      cases w <;> omega
  · intro s hr
    obtain ⟨-, -, hp⟩ := reachable_stateInv hr
    exact hp

/-- Witness for C7: a legal sparse board with 3 placed symbols has no
winner, and the initial state satisfies the count invariant. -/
theorem claim_C7_witness :
    calculateWinner sparseBoard = none
    ∧ (countSym Player.O initialState.board
        ≤ countSym Player.X initialState.board
      ∧ countSym Player.X initialState.board
        ≤ countSym Player.O initialState.board + 1) :=
  ⟨claim_C7.2.1 sparseBoard (by decide) (by decide) (by decide),
   claim_C7.2.2 initialState Reachable.init⟩

/-- If the scan finds no winner, the shared loop found no matching
line. -/
theorem find?_eq_none_of_winner_none {bd : Board}
    (h : calculateWinner bd = none) :
    winLines.find? (lineMatches bd) = none := by
  cases hf : winLines.find? (lineMatches bd) with
  | none => rfl
  | some l =>
    exfalso
    have hcb : calculateWinner bd = bd l.1 := by
      unfold calculateWinner
      rw [hf]
    obtain ⟨q, hq⟩ := lineMatches_iff.mp (List.find?_some hf)
    rw [hcb, hq.1] at h
    cases h

/-- C3: on every board the scan visits exactly the 8 fixed lines in the
fixed source order — rows, columns, diagonals — and returns the symbol
of the first line whose three cells are equal and non-empty, with
`boardWinnerSquares` returning that same first line; no winner is
reported exactly when no line is uniformly filled; and both functions
are pure, so equal boards give equal results. -/
theorem claim_C3 (bd : Board) :
    (∀ p, calculateWinner bd = some p ↔
      ∃ l pre post,
        ([(0, 1, 2), (3, 4, 5), (6, 7, 8), (0, 3, 6), (1, 4, 7), (2, 5, 8),
          (0, 4, 8), (2, 4, 6)] : List (Fin 9 × Fin 9 × Fin 9))
            = pre ++ l :: post
        ∧ lineFilledBy bd l p
        ∧ (∀ l' ∈ pre, ∀ q, ¬ lineFilledBy bd l' q)
        ∧ boardWinnerSquares bd = [l.1, l.2.1, l.2.2])
    ∧ (calculateWinner bd = none ↔
        ∀ l ∈ ([(0, 1, 2), (3, 4, 5), (6, 7, 8), (0, 3, 6), (1, 4, 7),
          (2, 5, 8), (0, 4, 8), (2, 4, 6)] : List (Fin 9 × Fin 9 × Fin 9)),
          ∀ q, ¬ lineFilledBy bd l q)
    ∧ (calculateWinner bd = none → boardWinnerSquares bd = [])
    ∧ (∀ bd' : Board, bd = bd' →
        calculateWinner bd' = calculateWinner bd
        ∧ boardWinnerSquares bd' = boardWinnerSquares bd) := by
  refine ⟨?_, ?_, ?_, ?_⟩
  · intro p
    constructor
    · intro h
      cases hf : winLines.find? (lineMatches bd) with
      | none =>
        have hn : calculateWinner bd = none := by
          unfold calculateWinner
          rw [hf]
        rw [hn] at h
        cases h
      | some l =>
        have hcb : calculateWinner bd = bd l.1 := by
          unfold calculateWinner
          rw [hf]
        have hl1 : bd l.1 = some p := by rw [← hcb]; exact h
        obtain ⟨hpl, pre, post, hsplit, hpre⟩ := List.find?_eq_some.mp hf
        obtain ⟨q, hq⟩ := lineMatches_iff.mp hpl
        obtain rfl : q = p := Option.some.inj (hq.1.symm.trans hl1)
        refine ⟨l, pre, post, hsplit, hq, ?_, ?_⟩
        · intro l' hl' q' hq'
          have hb := hpre l' hl'
          have hlm : lineMatches bd l' = true := lineMatches_iff.mpr ⟨q', hq'⟩
          rw [hlm] at hb
          cases hb
        · unfold boardWinnerSquares
          rw [hf]
    · rintro ⟨l, pre, post, hsplit, hfill, hpre, -⟩
      have hf : winLines.find? (lineMatches bd) = some l := by
        apply List.find?_eq_some.mpr
        refine ⟨lineMatches_iff.mpr ⟨p, hfill⟩, pre, post, hsplit, ?_⟩
        intro a ha
        cases hb : lineMatches bd a with
        | false => rfl
        | true =>
          obtain ⟨q', hq'⟩ := lineMatches_iff.mp hb
          exact absurd hq' (hpre a ha q')
      have hcb : calculateWinner bd = bd l.1 := by
        unfold calculateWinner
        rw [hf]
      rw [hcb, hfill.1]
  · constructor
    · intro h l hl q hq
      have hf := find?_eq_none_of_winner_none h
      exact List.find?_eq_none.mp hf l hl (lineMatches_iff.mpr ⟨q, hq⟩)
    · intro h
      have hf : winLines.find? (lineMatches bd) = none := by
        apply List.find?_eq_none.mpr
        intro x hx hmx
        obtain ⟨q, hq⟩ := lineMatches_iff.mp hmx
        exact h x hx q hq
      unfold calculateWinner
      rw [hf]
  · intro h
    have hf := find?_eq_none_of_winner_none h
    unfold boardWinnerSquares
    rw [hf]
  · intro bd' h
    rw [h]
    exact ⟨rfl, rfl⟩

/-- Witness for C3: the first-match decomposition on the top-row win
board, and the no-winner characterization on the empty board. -/
theorem claim_C3_witness :
    (∃ l pre post,
      ([(0, 1, 2), (3, 4, 5), (6, 7, 8), (0, 3, 6), (1, 4, 7), (2, 5, 8),
        (0, 4, 8), (2, 4, 6)] : List (Fin 9 × Fin 9 × Fin 9))
          = pre ++ l :: post
      ∧ lineFilledBy winBoard l Player.X
      ∧ (∀ l' ∈ pre, ∀ q, ¬ lineFilledBy winBoard l' q)
      ∧ boardWinnerSquares winBoard = [l.1, l.2.1, l.2.2])
    ∧ boardWinnerSquares getInitialBoard = [] :=
  ⟨((claim_C3 winBoard).1 Player.X).mp (by decide),
   (claim_C3 getInitialBoard).2.2.1 (by decide)⟩
